import Mathlib

/-!
# Verification of the AMR quad-tree core

Shallow embedding of the 2D adaptive-mesh-refinement engine
(`src/node.py`, `src/mesh.py`, `src/scheme.py`, `src/refinement.py`).

Modelling choices:
* A 2D tree cell is `QTree`: a leaf carrying its scalar value, or an
  internal node carrying its stored value and exactly four children
  (the code's `Node.refine` always creates all four 2D children keyed by
  `(x, y) ∈ {0,1}²`, and `coarsen` removes all of them at once).
* A node of the tree is addressed by its path of in-parent origins,
  listed deepest-first (`head` is the node's own `origin`, the way
  `Node.neighbor` recurses through `self._parent`).  The root has path
  `[]`; `Node.level` equals the path length.
* Scalar values are `ℚ` (the Python floats are modelled as exact
  rationals; every property settled below is insensitive to rounding).
* `Node.neighbor` never reads values, so it is defined on the value-free
  shape `BTreeS` of a tree.
-/

/-- Shape of a 2D mesh tree: leaf, or four children keyed by
`(x, y) ∈ {0,1}²` (field `cXY` is the child at origin `(X, Y)`). -/
inductive BTreeS where
  | leaf : BTreeS
  | node (c00 c01 c10 c11 : BTreeS) : BTreeS
  deriving Repr, DecidableEq

/-- A 2D mesh tree with stored scalar values: models `Node` from
`src/node.py` restricted to the 2D case (`origin = (x, y, None)`).
Internal nodes keep their own `_value` alongside the four children. -/
inductive QTree where
  | leaf (value : ℚ) : QTree
  | node (value : ℚ) (c00 c01 c10 c11 : QTree) : QTree
  deriving Repr, DecidableEq

/-- In-parent origin of a cell: `(x, y)` with `false ↦ 0`, `true ↦ 1`. -/
abbrev Step := Bool × Bool

/-- CellPath from a node up to the root, deepest origin first (the order in
which `Node.neighbor` unwinds `self._parent`).  `Node.level` is the
length of the path. -/
abbrev CellPath := List Step

/-- The four cardinal directions of `node.py`'s `Direction`. -/
inductive Dir where
  | RIGHT | LEFT | UP | DOWN
  deriving Repr, DecidableEq

namespace QTree

/-- The stored `_value` of the node at the root of the (sub)tree. -/
def val : QTree → ℚ
  | .leaf v => v
  | .node v _ _ _ _ => v

/-- Erase values, keeping the subdivision shape. -/
def shapeOf : QTree → BTreeS
  | .leaf _ => .leaf
  | .node _ a b c d => .node (shapeOf a) (shapeOf b) (shapeOf c) (shapeOf d)

end QTree

namespace BTreeS

/-- Child of a shape at a given origin (`none` on a leaf), mirroring
`Node._children.get(origin)`. -/
def child : BTreeS → Step → Option BTreeS
  | .leaf, _ => none
  | .node a _ _ _, (false, false) => some a
  | .node _ b _ _, (false, true) => some b
  | .node _ _ c _, (true, false) => some c
  | .node _ _ _ d, (true, true) => some d

/-- Walk a root-first list of origins down from the root. -/
def descendRootFirst : BTreeS → List Step → Option BTreeS
  | s, [] => some s
  | s, o :: rest =>
      match s.child o with
      | none => none
      | some s' => descendRootFirst s' rest

/-- Subtree shape addressed by a (deepest-first) path. -/
def subtreeAt (s : BTreeS) (p : CellPath) : Option BTreeS :=
  descendRootFirst s p.reverse

/-- `Node.is_leaf` at a path.  Unreachable (invalid) paths count as
leaves, which stops every traversal exactly where the code would have
received `None` from a `.get`. -/
def isLeafAt (s : BTreeS) (p : CellPath) : Bool :=
  match s.subtreeAt p with
  | some (.node _ _ _ _) => false
  | _ => true

end BTreeS

/-- The same-parent sibling origin one step in `direction`, when it
stays inside `{0,1}²` — the `adjacent_origin` probe of `Node.neighbor`
(`RIGHT: (x+1, y)`, `LEFT: (x-1, y)`, `UP: (x, y-1)`, `DOWN: (x, y+1)`;
`none` exactly when the code ends up `at_parent_edge`). -/
def adjacentInParent : Step → Dir → Option Step
  | (x, y), .RIGHT => if x = false then some (true, y) else none
  | (x, y), .LEFT => if x = true then some (false, y) else none
  | (x, y), .UP => if y = true then some (x, false) else none
  | (x, y), .DOWN => if y = false then some (x, true) else none

/-- Mirror the crossed coordinate for the opposite edge, keeping the
transverse coordinate (`neighbor_x, neighbor_y` in `Node.neighbor`). -/
def mirrorStep : Step → Dir → Step
  | (_, y), .RIGHT => (false, y)
  | (_, y), .LEFT => (true, y)
  | (x, _), .UP => (x, true)
  | (x, _), .DOWN => (x, false)

/-- The descent loop of `Node.neighbor`: while the candidate is coarser
than the caller (`level < self.level`) and not a leaf, step into the
child at the mirrored origin.  Fuel bounds the loop; it is always called
with enough fuel for the level test to be the real stopping rule. -/
def descendLoop (s : BTreeS) (lvl : Nat) (m : Step) : Nat → CellPath → CellPath
  | 0, q => q
  | fuel + 1, q =>
      if q.length < lvl ∧ s.isLeafAt q = false then
        descendLoop s lvl m fuel (m :: q)
      else q

/-- `Node.neighbor(direction)` (2D): path of the returned node, or
`none` where the code returns `None`. -/
def neighborPathS (s : BTreeS) : CellPath → Dir → Option CellPath
  | [], _ => none
  | o :: ps, d =>
      match adjacentInParent o d with
      | some o' => some (o' :: ps)
      | none =>
          match neighborPathS s ps d with
          | none => none
          | some pn =>
              if s.isLeafAt pn then some pn
              else
                let m := mirrorStep o d
                some (descendLoop s (ps.length + 1) m (ps.length + 1) (m :: pn))

namespace QTree

/-- Subtree (with values) addressed by a path. -/
def subtreeAt (t : QTree) (p : CellPath) : Option QTree :=
  go t p.reverse
where
  go : QTree → List Step → Option QTree
    | t', [] => some t'
    | .leaf _, _ :: _ => none
    | .node _ a _ _ _, (false, false) :: rest => go a rest
    | .node _ _ b _ _, (false, true) :: rest => go b rest
    | .node _ _ _ c _, (true, false) :: rest => go c rest
    | .node _ _ _ _ d, (true, true) :: rest => go d rest

/-- `node.value` read at a path (`none` on an invalid path). -/
def valueAt (t : QTree) (p : CellPath) : Option ℚ :=
  (t.subtreeAt p).map val

/-- Write `node.value = x` at a path (returns the tree unchanged on an
invalid path, which never arises below). -/
def setValueAt (t : QTree) (p : CellPath) (x : ℚ) : QTree :=
  go t p.reverse
where
  go : QTree → List Step → QTree
    | .leaf _, [] => .leaf x
    | .node _ a b c d, [] => .node x a b c d
    | .leaf v, _ :: _ => .leaf v
    | .node v a b c d, (false, false) :: rest => .node v (go a rest) b c d
    | .node v a b c d, (false, true) :: rest => .node v a (go b rest) c d
    | .node v a b c d, (true, false) :: rest => .node v a b (go c rest) d
    | .node v a b c d, (true, true) :: rest => .node v a b c (go d rest)

/-- `Node.leafs()` from a node: deepest-first paths of all leaves, in
the code's deterministic DFS order (children iterated in origin order
`(0,0), (0,1), (1,0), (1,1)`). -/
def leavesOf : QTree → List CellPath
  | .leaf _ => [[]]
  | .node _ a b c d =>
      (leavesOf a).map (· ++ [((false : Bool), (false : Bool))]) ++
      (leavesOf b).map (· ++ [((false : Bool), (true : Bool))]) ++
      (leavesOf c).map (· ++ [((true : Bool), (false : Bool))]) ++
      (leavesOf d).map (· ++ [((true : Bool), (true : Bool))])

end QTree

namespace QTree

/-- `Node.coarsen`: no-op on a childless node; otherwise set the value
to the running-sum average `reduce(...) / 4` of the children's values
and drop the children. -/
def coarsen : QTree → QTree
  | .leaf v => .leaf v
  | .node _ a b c d =>
      .leaf (((((0 : ℚ) + a.val) + b.val) + c.val + d.val) / 4)

/-- Replace the subtree at a path (used by `Node.refine`, which
installs a fresh `_children` dict on `self`). -/
def replaceAt (t : QTree) (p : CellPath) (sub : QTree) : QTree :=
  go t p.reverse
where
  go : QTree → List Step → QTree
    | _, [] => sub
    | .leaf v, _ :: _ => .leaf v
    | .node v a b c d, (false, false) :: rest => .node v (go a rest) b c d
    | .node v a b c d, (false, true) :: rest => .node v a (go b rest) c d
    | .node v a b c d, (true, false) :: rest => .node v a b (go c rest) d
    | .node v a b c d, (true, true) :: rest => .node v a b c (go d rest)

end QTree

/-- Neighbor value as seen through `parent.neighbor(direction).value`
(live tree): `none` exactly when the code gets `None`. -/
def neighborValue (t : QTree) (p : CellPath) (d : Dir) : Option ℚ :=
  match neighborPathS t.shapeOf p d with
  | none => none
  | some q => t.valueAt q

/-- The x-slope `dx` computed by the `interpolate` helper of
`Node.refine`: central difference when both x-neighbors exist, the
code's one-sided fallbacks otherwise, `0` when neither exists. -/
def slopeDx (t : QTree) (p : CellPath) : ℚ :=
  let v := (t.valueAt p).getD 0
  match neighborValue t p .RIGHT, neighborValue t p .LEFT with
  | some rv, some lv => (rv - lv) / 2
  | some rv, none => rv - v
  | none, some lv => v - lv
  | none, none => 0

/-- The y-slope `dy` computed by the `interpolate` helper of
`Node.refine`: `(down - up) / 2` when both exist, `up - value` when only
up exists, `value - down` when only down exists, `0` otherwise. -/
def slopeDy (t : QTree) (p : CellPath) : ℚ :=
  let v := (t.valueAt p).getD 0
  match neighborValue t p .UP, neighborValue t p .DOWN with
  | some uv, some dv => (dv - uv) / 2
  | some uv, none => uv - v
  | none, some dv => v - dv
  | none, none => 0

/-- `interpolate(parent, child_origin)` from `Node.refine`: parent value
plus the damped slopes weighted by the child-center offsets
`child_x * 0.5 + 0.25 - 0.5`. -/
def interpolateChild (t : QTree) (p : CellPath) (co : Step) : ℚ :=
  let v := (t.valueAt p).getD 0
  let dx := slopeDx t p * (1 / 10)
  let dy := slopeDy t p * (1 / 10)
  let cx : ℚ := (if co.1 then 1 else 0) * (1 / 2) + 1 / 4
  let cy : ℚ := (if co.2 then 1 else 0) * (1 / 2) + 1 / 4
  v + (cx - 1 / 2) * dx + (cy - 1 / 2) * dy

/-- `Node.refine()` without a generator at the node addressed by `p`:
interpolate the four children's values (in the code's origin order
`(0,0), (0,1), (1,0), (1,1)`) on the pre-refinement tree, then install
them and set the node's value to their average. -/
def refineAt (t : QTree) (p : CellPath) : QTree :=
  let v00 := interpolateChild t p (false, false)
  let v01 := interpolateChild t p (false, true)
  let v10 := interpolateChild t p (true, false)
  let v11 := interpolateChild t p (true, true)
  let mean := ((((0 : ℚ) + v00) + v01) + v10 + v11) / 4
  t.replaceAt p (.node mean (.leaf v00) (.leaf v01) (.leaf v10) (.leaf v11))

/-- One iteration of the sweep in
`SecondOrderCenteredFiniteDifferences.apply`: the center value comes
from the pre-sweep snapshot, the four neighbors are fetched and read on
the live (current) tree; a node missing any cardinal neighbor is
skipped. -/
def applyStep (fac d1 d2 : ℚ) (t : QTree) : CellPath × Option ℚ → QTree
  | (_, none) => t
  | (p, some v) =>
      match neighborValue t p .RIGHT, neighborValue t p .LEFT,
          neighborValue t p .UP, neighborValue t p .DOWN with
      | some rv, some lv, some uv, some dv =>
          let lap1 := (rv - 2 * v + lv) / d1 ^ 2
          let lap2 := lap1 + (uv - 2 * v + dv) / d2 ^ 2
          t.setValueAt p (v + lap2 * fac)
      | _, _, _, _ => t

/-- `SecondOrderCenteredFiniteDifferences.apply(nodes)`: snapshot every
node's own value up front (the `nodes_copy` list), then sweep the list
in order, each step writing into the live tree. -/
def applyScheme (fac d1 d2 : ℚ) (t : QTree) (nodes : List CellPath) : QTree :=
  (nodes.map fun p => (p, t.valueAt p)).foldl (applyStep fac d1 d2) t

/-- `RefinementCriterium.handle_neighbor`: the `(value, factor)` pair
contributed by the neighbor node at path `q` for a caller at level
`selfLevel` (`0.7905` against a coarser leaf, `1.0` against a same-level
leaf, facing-children average with `0.75` against a finer neighbor). -/
def handleNeighbor (t : QTree) (selfLevel : Nat) (q : CellPath) (d : Dir) :
    Option ℚ × ℚ :=
  match t.subtreeAt q with
  | none => (none, 0)
  | some (.leaf v) =>
      if q.length < selfLevel then (some v, 7905 / 10000) else (some v, 1)
  | some (.node _ a b c d') =>
      match d with
      | .RIGHT => (some ((a.val + b.val) / 2), 3 / 4)
      | .LEFT => (some ((c.val + d'.val) / 2), 3 / 4)
      | .UP => (some ((b.val + d'.val) / 2), 3 / 4)
      | .DOWN => (some ((a.val + c.val) / 2), 3 / 4)

/-- The `(value, factor)` entry of the `neighbors` list built by
`GradientRefinementCriterium.eval` for one direction. -/
def contrib (t : QTree) (p : CellPath) (d : Dir) : Option ℚ × ℚ :=
  match neighborPathS t.shapeOf p d with
  | none => (none, 0)
  | some q => handleNeighbor t p.length q d

/-- `GradientRefinementCriterium.eval`, parametrized by the square-root
function (`** 0.5` in the code).  Returns the verdict and the gradient
written to `node.gradient` (`none` when the truthiness guard
`all(n[0] for n in neighbors)` fails and nothing is computed). -/
def gradCritEval (sqrtFn : ℚ → ℚ) (threshold : ℚ) (t : QTree) (p : CellPath) :
    Bool × Option ℚ :=
  let nR := contrib t p .RIGHT
  let nL := contrib t p .LEFT
  let nU := contrib t p .UP
  let nD := contrib t p .DOWN
  match nR.1, nL.1, nU.1, nD.1 with
  | some rv, some lv, some uv, some dv =>
      if rv = 0 ∨ lv = 0 ∨ uv = 0 ∨ dv = 0 then (false, none)
      else
        let dxg := (rv - lv) / (nR.2 + nL.2)
        let dyg := (uv - dv) / (nU.2 + nD.2)
        let mag := sqrtFn (dxg ^ 2 + dyg ^ 2)
        let v := (t.valueAt p).getD 0
        let rel := if v ≠ 0 then mag / v else 0
        (rel > threshold, some rel)
  | _, _, _, _ => (false, none)

/-- `LogScaleGradientRefinuementCriterium.eval`, parametrized by the
square-root and natural-logarithm functions of the code. -/
def logCritEval (sqrtFn logFn : ℚ → ℚ) (threshold : ℚ) (t : QTree)
    (p : CellPath) : Bool × Option ℚ :=
  let nR := contrib t p .RIGHT
  let nL := contrib t p .LEFT
  let nU := contrib t p .UP
  let nD := contrib t p .DOWN
  match nR.1, nL.1, nU.1, nD.1 with
  | some rv, some lv, some uv, some dv =>
      if rv = 0 ∨ lv = 0 ∨ uv = 0 ∨ dv = 0 then (false, none)
      else
        let dxg := (rv - lv) / (nR.2 + nL.2)
        let dyg := (uv - dv) / (nU.2 + nD.2)
        let mag := sqrtFn (dxg ^ 2 + dyg ^ 2)
        let v := (t.valueAt p).getD 0
        let rel := if v ≠ 0 then mag / v else 0
        let relLog := logFn (rel + 1) * 10
        (relLog > threshold, some relLog)
  | _, _, _, _ => (false, none)

/-- `Node.refine(number_generator=g)` applied to every current leaf,
with a constant generator: one level of `Mesh.uniform`'s loop.  Each new
child takes `g` and the refined node's value becomes the children's
average, also `g`. -/
def refineLeavesWithGen (g : ℚ) : QTree → QTree
  | .leaf _ => .node g (.leaf g) (.leaf g) (.leaf g) (.leaf g)
  | .node v a b c d =>
      .node v (refineLeavesWithGen g a) (refineLeavesWithGen g b)
        (refineLeavesWithGen g c) (refineLeavesWithGen g d)

/-- Python's `int.bit_length` on naturals, fueled for structural
evaluation: `0` for `0`, else one more than the bit length of `n / 2`
(the fuel `n` always suffices since the length is at most `n`). -/
def bitLenAux : Nat → Nat → Nat
  | 0, _ => 0
  | fuel + 1, n => if n = 0 then 0 else bitLenAux fuel (n / 2) + 1

/-- `n.bit_length()` from `Mesh.uniform`. -/
def bitLength (n : Nat) : Nat :=
  bitLenAux n n

/-- `Mesh.uniform(n, gen, ...)` (2D, constant generator): rejects `n`
with `n & (n - 1) != 0`, otherwise installs a root of value 0 and
refines every leaf `n.bit_length() - 1` times, returning the mesh and
that (possibly negative) maximal leaf level. -/
def uniformMesh (n : Nat) (g : ℚ) : Except String (QTree × Int) :=
  if Nat.land n (n - 1) ≠ 0 then
    .error "Number of nodes must be a power of 2."
  else
    let k : Int := (bitLength n : Int) - 1
    .ok ((refineLeavesWithGen g)^[k.toNat] (.leaf 0), k)

/-! ## Concrete fixtures and claim-side definitions -/

/-- Shorthand leaf of value 0. -/
def lf0 : QTree := .leaf 0

/-- Shorthand leaf of value 1. -/
def lf1 : QTree := .leaf 1

/-- A depth-2 uniform tree whose only nonzero value sits on the leaf at
`(1,1)` inside the root child `(0,0)` — two horizontally adjacent
interior leaves make the sweep order observable. -/
def tC2 : QTree :=
  .node 0 (.node 0 lf0 lf0 lf0 (.leaf 1)) (.node 0 lf0 lf0 lf0 lf0)
    (.node 0 lf0 lf0 lf0 lf0) (.node 0 lf0 lf0 lf0 lf0)

/-- Interior leaf `(1,1)` of root child `(0,0)` (deepest origin first). -/
def pA2 : CellPath := [(true, true), (false, false)]

/-- Interior leaf `(0,1)` of root child `(1,0)`, the right neighbor of
the cell at `pA2`. -/
def pB2 : CellPath := [(false, true), (true, false)]

/-- A depth-1 tree (four boundary leaves) with pairwise distinct
values. -/
def tC3 : QTree := .node 0 (.leaf 1) (.leaf 3) (.leaf 2) (.leaf 4)

/-- Modelled from the claim (C3): the update a boundary leaf would
receive under Neumann zero-gradient ghost-cell mirroring, each missing
cardinal neighbor contributing the cell's own value. -/
def neumannClaimValue (fac d1 d2 : ℚ) (t : QTree) (p : CellPath) : ℚ :=
  let v := (t.valueAt p).getD 0
  let rv := (neighborValue t p .RIGHT).getD v
  let lv := (neighborValue t p .LEFT).getD v
  let uv := (neighborValue t p .UP).getD v
  let dv := (neighborValue t p .DOWN).getD v
  v + ((rv - 2 * v + lv) / d1 ^ 2 + (uv - 2 * v + dv) / d2 ^ 2) * fac

/-- A depth-1 tree used to exercise the one-sided `dy` fallback: the
child `(0,1)` has a right and an up neighbor but no left or down one. -/
def tC4 : QTree := .node 0 (.leaf 1) (.leaf 0) (.leaf 2) (.leaf 4)

/-- The root child `(0,1)` of `tC4`. -/
def pC4 : CellPath := [(false, true)]

/-- Modelled from the claim (C4): `dy` computed "the same way" as `dx`
from `(down − up)` — central difference `(down − up) / 2`, one-sided
fallbacks oriented consistently with it (`value − up` with only an up
neighbor, `down − value` with only a down neighbor), `0` otherwise. -/
def slopeDyPerClaim (t : QTree) (p : CellPath) : ℚ :=
  let v := (t.valueAt p).getD 0
  match neighborValue t p .UP, neighborValue t p .DOWN with
  | some uv, some dv => (dv - uv) / 2
  | some uv, none => v - uv
  | none, some dv => dv - v
  | none, none => 0

/-- Restatement of the `dx` slope from the claim's words (C4): central
difference when both x-neighbors exist, forward/backward difference with
the single available neighbor, else 0. -/
def slopeDxSpec (t : QTree) (p : CellPath) : ℚ :=
  let v := (t.valueAt p).getD 0
  match neighborValue t p .RIGHT, neighborValue t p .LEFT with
  | some rv, some lv => (rv - lv) / 2
  | some rv, none => rv - v
  | none, some lv => v - lv
  | none, none => 0

/-- The `dy` slope as the amended claim states it: central difference
`(down − up) / 2` when both y-neighbors exist, and sign-mirrored
one-sided fallbacks `up − value` (only up) and `value − down` (only
down), else 0. -/
def slopeDySpec (t : QTree) (p : CellPath) : ℚ :=
  let v := (t.valueAt p).getD 0
  match neighborValue t p .UP, neighborValue t p .DOWN with
  | some uv, some dv => (dv - uv) / 2
  | some uv, none => uv - v
  | none, some dv => v - dv
  | none, none => 0

/-- A depth-2 uniform tree carrying value 1 on every leaf but value 5 on
the internal node at `(1,1)` of root child `(0,0)` (the leaf-level
hypothesis of P5 says nothing about internal nodes, yet the neighbor
lookup can hand an internal node to the scheme). -/
def tC8 : QTree :=
  .node 1 (.node 1 lf1 lf1 lf1 (.node 5 lf1 lf1 lf1 lf1))
    (.node 1 lf1 lf1 lf1 lf1) (.node 1 lf1 lf1 lf1 lf1)
    (.node 1 lf1 lf1 lf1 lf1)

/-- Interior leaf `(0,1)` of root child `(1,0)` of `tC8`: its left
neighbor is the internal node of value 5. -/
def pC8 : CellPath := [(false, true), (true, false)]

/-- `allValuesB t v`: every node of the tree (leaves and internal nodes)
stores the value `v`. -/
def allValuesB : QTree → ℚ → Bool
  | .leaf w, v => w == v
  | .node w a b c d, v =>
      w == v && allValuesB a v && allValuesB b v && allValuesB c v &&
        allValuesB d v

/-- A depth-2 uniform tree around the interior leaf at `(1,1)` of root
child `(0,0)`, whose four same-level neighbor leaves carry values
7 (right), 1 (left), 9 (up) and 1 (down); the leaf itself carries −1. -/
def tC5 : QTree :=
  .node 0 (.node 0 (.leaf 0) (.leaf 1) (.leaf 9) (.leaf (-1)))
    (.node 0 lf0 lf0 (.leaf 1) lf0) (.node 0 lf0 (.leaf 7) lf0 lf0)
    (.node 0 lf0 lf0 lf0 lf0)

/-- The interior leaf `(1,1)` of root child `(0,0)`. -/
def pC5 : CellPath := [(true, true), (false, false)]

/-- A square-root table agreeing with the exact square root at the only
point where the fixtures evaluate it (`√25 = 5`). -/
def sqrtAt25 : ℚ → ℚ := fun q => if q = 25 then 5 else 0

/-- Modelled from the claim (C5): the relative gradient as the spec
describes it, `magnitude / max(|self.value|, 10⁻⁶)`. -/
def relPerClaimC5 (sqrtFn : ℚ → ℚ) (t : QTree) (p : CellPath) : ℚ :=
  let nR := contrib t p .RIGHT
  let nL := contrib t p .LEFT
  let nU := contrib t p .UP
  let nD := contrib t p .DOWN
  let dxg := (nR.1.getD 0 - nL.1.getD 0) / (nR.2 + nL.2)
  let dyg := (nU.1.getD 0 - nD.1.getD 0) / (nU.2 + nD.2)
  let mag := sqrtFn (dxg ^ 2 + dyg ^ 2)
  mag / max |(t.valueAt p).getD 0| (1 / 1000000)

/-- The relative gradient the code actually computes (amended C5):
magnitude divided by the raw `self.value`, and 0 when the value is 0. -/
def relAmendedC5 (sqrtFn : ℚ → ℚ) (t : QTree) (p : CellPath) : ℚ :=
  let nR := contrib t p .RIGHT
  let nL := contrib t p .LEFT
  let nU := contrib t p .UP
  let nD := contrib t p .DOWN
  let dxg := (nR.1.getD 0 - nL.1.getD 0) / (nR.2 + nL.2)
  let dyg := (nU.1.getD 0 - nD.1.getD 0) / (nU.2 + nD.2)
  let mag := sqrtFn (dxg ^ 2 + dyg ^ 2)
  let v := (t.valueAt p).getD 0
  if v ≠ 0 then mag / v else 0

/-- Like `tC5` but the right neighbor of the interior leaf carries the
value 0, so its truthiness test fails although the neighbor exists. -/
def tC10 : QTree :=
  .node 0 (.node 0 (.leaf 0) (.leaf 1) (.leaf 9) (.leaf (-1)))
    (.node 0 lf0 lf0 (.leaf 1) lf0) (.node 0 lf0 (.leaf 0) lf0 lf0)
    (.node 0 lf0 lf0 lf0 lf0)

/-- A uniform depth-1 tree of constant value 7. -/
def tC8W : QTree := .node 7 (.leaf 7) (.leaf 7) (.leaf 7) (.leaf 7)

/-! ## The refine/coarsen scheduler of `Mesh.refine` -/

/-- `Node.chain(*directions)`: fold `neighbor` over the directions,
short-circuiting to `None` on a missing link. -/
def chainPath (s : BTreeS) : CellPath → List Dir → Option CellPath
  | p, [] => some p
  | p, d :: ds =>
      match neighborPathS s p d with
      | none => none
      | some q => chainPath s q ds

/-- `node.chain(*[direction] * i)`. -/
def chainRepeat (s : BTreeS) (p : CellPath) (d : Dir) (i : Nat) :
    Option CellPath :=
  chainPath s p (List.replicate i d)

/-- The recursive `helper` of `Node.buffer`: walk one diagonal step at a
time, each time prepending (deque `appendleft`) the cardinal chains of
the current corner node, exactly in the code's order. -/
def bufferHelper (s : BTreeS) (dirs : List Dir) :
    Nat → Option CellPath → List (Option CellPath) → List (Option CellPath)
  | _, none, acc => acc
  | 0, some p, acc => some p :: acc
  | nn + 1, some p, acc =>
      let items := dirs.flatMap fun d =>
        (List.range (nn + 1)).map fun i => chainRepeat s p d (i + 1)
      let buffered := items.reverse ++ [some p]
      bufferHelper s dirs nn (chainPath s p dirs) (acc ++ buffered)

/-- `Node.buffer(n)`: the cardinal chains up to distance `n` plus the
four recursively expanded diagonal corners, `None` entries dropped. -/
def bufferNodes (s : BTreeS) (p : CellPath) (n : Nat) : List CellPath :=
  let cardinal : List CellPath :=
    ([Dir.RIGHT, Dir.LEFT, Dir.UP, Dir.DOWN].flatMap fun d =>
      (List.range n).map fun i => chainRepeat s p d (i + 1)).filterMap id
  let diagonal : List (Option CellPath) :=
    [[Dir.RIGHT, Dir.UP], [Dir.LEFT, Dir.UP], [Dir.RIGHT, Dir.DOWN],
      [Dir.LEFT, Dir.DOWN]].foldl
      (fun res dirs => bufferHelper s dirs (n - 1) (chainPath s p dirs) res)
      []
  diagonal.filterMap id ++ cardinal

/-- A refinement criterium seen through the embedding: a predicate on
the current tree and the node's path (`CustomRefinementCriterium` is any
such predicate; the bypass criterium is `fun _ _ => true`). -/
abbrev Crit := QTree → CellPath → Bool

/-- `Node.shall_refine(criterium)`: the criterium must accept and no
cardinal neighbor may be more than one level away from `level + 1`. -/
def shallRefine (crit : Crit) (t : QTree) (p : CellPath) : Bool :=
  if crit t p = false then false
  else
    [Dir.RIGHT, Dir.LEFT, Dir.UP, Dir.DOWN].all fun d =>
      match neighborPathS t.shapeOf p d with
      | none => true
      | some q => ((q.length : Int) - ((p.length : Int) + 1)).natAbs ≤ 1

/-- The root of a shape is a leaf. -/
def isLeafS : BTreeS → Bool
  | .leaf => true
  | .node _ _ _ _ => false

/-- `finest_neighbor_level` from `Node.shall_coarsen`: a leaf neighbor
reports its level; a non-leaf neighbor reports its two facing children's
level, plus one if either of them is itself refined. -/
def finestNeighborLevel (s : BTreeS) (p : CellPath) (d : Dir) : Option Nat :=
  match neighborPathS s p d with
  | none => none
  | some q =>
      match s.subtreeAt q with
      | none => none
      | some .leaf => some q.length
      | some (.node a b c d') =>
          let facing : BTreeS × BTreeS :=
            match d with
            | .RIGHT => (a, b)
            | .LEFT => (c, d')
            | .UP => (b, d')
            | .DOWN => (a, c)
          if ¬(isLeafS facing.1 ∧ isLeafS facing.2) then some (q.length + 2)
          else some (q.length + 1)

/-- `Node.shall_coarsen(criterium)`.  Note the Python truthiness test
`if not neighbor: continue` which also skips a reported level 0. -/
def shallCoarsen (crit : Crit) (t : QTree) (p : CellPath) : Bool :=
  (([Dir.RIGHT, Dir.LEFT, Dir.UP, Dir.DOWN].map
      (finestNeighborLevel t.shapeOf p)).all fun lv =>
    match lv with
    | none => true
    | some 0 => true
    | some l => ((l : Int) - (p.length : Int)).natAbs ≤ 1) &&
  !(crit t p)

/-- `Node.coarsen` applied at a path of the full tree. -/
def coarsenAt (t : QTree) (p : CellPath) : QTree :=
  match t.subtreeAt p with
  | none => t
  | some sub => t.replaceAt p sub.coarsen

/-- Append an element unless already present (models `set.add` with the
insertion order as iteration order). -/
def insertIfNew (l : List CellPath) (x : CellPath) : List CellPath :=
  if l.contains x then l else l ++ [x]

/-- One iteration of Pass 1 of `Mesh.refine` for a (stale-list) leaf:
when the criterium flags it, refine its buffer zone under the bypass
criterium and the physical constraints, protect the buffer nodes (or
their parents), then mark the leaf itself for refinement if it still
passes `shall_refine` and the depth cap. -/
def pass1Step (crit : Crit) (maxD : Nat)
    (st : QTree × List CellPath × List CellPath) (leaf : CellPath) :
    QTree × List CellPath × List CellPath :=
  let tcur := st.1
  let toRef := st.2.1
  let prot := st.2.2
  if crit tcur leaf then
    let buf := bufferNodes tcur.shapeOf leaf 4
    let st2 := buf.foldl
      (fun (st2 : QTree × List CellPath) q =>
        if leaf.length < maxD ∧ BTreeS.isLeafAt st2.1.shapeOf q = true ∧
            q.length < maxD ∧ shallRefine (fun _ _ => true) st2.1 q = true then
          (refineAt st2.1 q, insertIfNew st2.2 q)
        else (st2.1, insertIfNew st2.2 q.tail))
      (tcur, prot)
    let toRef2 :=
      if shallRefine crit st2.1 leaf = true ∧ leaf.length < maxD then
        insertIfNew toRef leaf
      else toRef
    (st2.1, toRef2, st2.2)
  else (tcur, toRef, prot)

/-- Group the Pass 2 leaves by parent (first-appearance order), skipping
leaves whose parent was refined or protected in Pass 1; the root (which
has no parent) is keyed by `none`. -/
def groupByParent (leaves : List CellPath) (excluded : List CellPath) :
    List (Option CellPath × List CellPath) :=
  leaves.foldl
    (fun acc q =>
      let par : Option CellPath := if q = [] then none else some q.tail
      let skip : Bool :=
        match par with
        | none => false
        | some pp => excluded.contains pp
      if skip then acc
      else
        match acc.lookup par with
        | some _ => acc.map fun e => if e.1 = par then (e.1, e.2 ++ [q]) else e
        | none => acc ++ [(par, [q])])
    []

/-- Pass 2 candidate collection: a parent with a full leaf child set
that may coarsen (grading check, criterium rejection, `min_depth`).  A
`none` parent key reproduces the code's `parent._is_tri_dimensional`
dereference on `None` (an `AttributeError`), modelled as `none`. -/
def collectCoarsen (crit : Crit) (t : QTree) (minD : Nat)
    (groups : List (Option CellPath × List CellPath)) :
    Option (List CellPath) :=
  groups.foldl
    (fun acc e =>
      match acc with
      | none => none
      | some lst =>
          match e.1 with
          | none =>
              if e.2.all fun c => BTreeS.isLeafAt t.shapeOf c then none
              else some lst
          | some pp =>
              if (e.2.all fun c => BTreeS.isLeafAt t.shapeOf c) &&
                  e.2.length == 4 && shallCoarsen crit t pp &&
                  minD ≤ pp.length then
                some (lst ++ [pp])
              else some lst)
    (some [])

/-- `Mesh.refine(criterium, min_depth, max_depth)` (2D): Pass 1 over the
stale leaf list (buffer refinement plus flagged-leaf refinement), then
Pass 2 coarsening of unprotected full-leaf parents.  `none` models the
uncaught `AttributeError` raised when a leaf has no parent in Pass 2.
The Python sets `to_refine` and `neighbors` are modelled as
insertion-ordered lists: `neighbors` is only ever tested for membership,
and the `to_refine` elements come from one leaf set (an antichain) and
each `refine()` installs a fresh depth-one subtree, so the final tree
shape does not depend on the set iteration order. -/
def refineScheduler (crit : Crit) (minD maxD : Nat) (t : QTree) :
    Option QTree :=
  let leaves := t.leavesOf
  let st := leaves.foldl (pass1Step crit maxD) (t, [], [])
  let t1 := st.2.1.foldl refineAt st.1
  let leaves2 := t1.leavesOf
  let groups := groupByParent leaves2 (st.2.1 ++ st.2.2)
  match collectCoarsen crit t1 minD groups with
  | none => none
  | some lst => some (lst.foldl coarsenAt t1)

/-- The 2:1 grading property of claim C1: every leaf's returned cardinal
neighbor is within one level. -/
def leafGraded (t : QTree) : Bool :=
  t.leavesOf.all fun p =>
    [Dir.RIGHT, Dir.LEFT, Dir.UP, Dir.DOWN].all fun d =>
      match neighborPathS t.shapeOf p d with
      | none => true
      | some q => ((q.length : Int) - (p.length : Int)).natAbs ≤ 1

/-- A legal (2:1-graded) tree for the scheduler counterexample: the
root child `(1,0)` is refined and its own child `(1,0)` is refined
again. -/
def tC1 : QTree :=
  .node 0 lf0 lf0 (.node 0 lf0 lf0 (.node 0 lf0 lf0 lf0 lf0) lf0) lf0

/-- The leaves flagged by the counterexample criterion: child `(0,0)` of
the root child `(1,0)`, child `(0,1)` of its refined child, and the root
child `(1,1)`. -/
def flagsC1 : List CellPath :=
  [[(false, false), (true, false)],
    [(false, true), (true, false), (true, false)], [(true, true)]]

/-- A `CustomRefinementCriterium` flagging exactly the leaves in
`flagsC1` (value-independent, stateless). -/
def critC1 : Crit := fun _ p => flagsC1.contains p

/-! ## Helper lemmas -/

theorem descendLoop_length_le (s : BTreeS) (lvl : Nat) (m : Step) :
    ∀ (fuel : Nat) (q : CellPath), q.length ≤ lvl →
      (descendLoop s lvl m fuel q).length ≤ lvl := by
  intro fuel
  induction fuel with
  | zero => intro q hq; simpa [descendLoop] using hq
  | succ n ih =>
      intro q hq
      rw [descendLoop]
      split
      · next h =>
          obtain ⟨h1, _⟩ := h
          exact ih (m :: q) (by simp only [List.length_cons]; omega)
      · exact hq

theorem neighborPathS_length_le (s : BTreeS) :
    ∀ (p : CellPath) (d : Dir) (q : CellPath),
      neighborPathS s p d = some q → q.length ≤ p.length := by
  intro p
  induction p with
  | nil => intro d q h; simp [neighborPathS] at h
  | cons o ps ih =>
      intro d q h
      rcases hao : adjacentInParent o d with _ | o'
      · rcases hn : neighborPathS s ps d with _ | pn
        · simp [neighborPathS, hao, hn] at h
        · have hpn := ih d pn hn
          by_cases hl : s.isLeafAt pn = true
          · simp only [neighborPathS, hao, hn, hl, if_true] at h
            cases h
            simp only [List.length_cons]
            omega
          · simp only [neighborPathS, hao, hn, hl, Bool.false_eq_true,
              if_false] at h
            cases h
            simp only [List.length_cons]
            exact descendLoop_length_le s (ps.length + 1) _ _ (m := _)
              (by simp only [List.length_cons]; omega)
      · simp only [neighborPathS, hao] at h
        cases h
        simp

/-! ## C9, C6 and the concrete counterexamples -/

/-- C9: `Node.neighbor(direction)` returns either `None` or a node whose
level (path length) is at most the caller's level — never a strictly
finer node. -/
theorem neighbor_same_level_or_coarser (s : BTreeS) (p : CellPath) (d : Dir)
    (q : CellPath) (h : neighborPathS s p d = some q) :
    q.length ≤ p.length :=
  neighborPathS_length_le s p d q h

/-- Witness for C9 at a concrete tree: the right neighbor of the
interior leaf `pA2` of `tC2` is the same-level leaf `pB2`. -/
theorem neighbor_same_level_or_coarser_witness :
    neighborPathS (QTree.shapeOf tC2) pA2 Dir.RIGHT = some pB2 ∧
    pB2.length ≤ pA2.length :=
  ⟨by decide,
    neighbor_same_level_or_coarser (QTree.shapeOf tC2) pA2 Dir.RIGHT pB2
      (by decide)⟩

/-- C6: `Node.coarsen` is a no-op on a childless node, and on a node
with children it replaces the node by a leaf whose value is the
arithmetic mean of the values the four children held at call time. -/
theorem coarsen_noop_or_mean :
    (∀ v : ℚ, QTree.coarsen (.leaf v) = .leaf v) ∧
    (∀ (w : ℚ) (a b c d : QTree), QTree.coarsen (.node w a b c d) =
      .leaf ((a.val + b.val + c.val + d.val) / 4)) := by
  refine ⟨fun v => rfl, fun w a b c d => ?_⟩
  simp only [QTree.coarsen, zero_add]

/-- Supporting evaluation for C2: on `tC2` the scheme writes different
final values depending on the traversal order of the same two interior
leaves, because the later update reads its neighbor's already-updated
live value (−3 in place of the snapshot value 1). -/
theorem scheme_apply_order_dependent :
    applyScheme 1 1 1 tC2 [pA2, pB2] ≠ applyScheme 1 1 1 tC2 [pB2, pA2] ∧
    (applyScheme 1 1 1 tC2 [pA2, pB2]).valueAt pB2 = some (-3) ∧
    (applyScheme 1 1 1 tC2 [pB2, pA2]).valueAt pB2 = some 1 := by
  have h1 : (applyScheme 1 1 1 tC2 [pA2, pB2]).valueAt pB2 = some (-3) := by
    norm_num [applyScheme, applyStep, neighborValue, neighborPathS,
      QTree.valueAt, QTree.subtreeAt, QTree.subtreeAt.go, QTree.setValueAt,
      QTree.setValueAt.go, QTree.shapeOf, QTree.val, BTreeS.isLeafAt,
      BTreeS.subtreeAt, BTreeS.descendRootFirst, BTreeS.child,
      adjacentInParent, mirrorStep, descendLoop, tC2, pA2, pB2, lf0, lf1]
  have h2 : (applyScheme 1 1 1 tC2 [pB2, pA2]).valueAt pB2 = some 1 := by
    norm_num [applyScheme, applyStep, neighborValue, neighborPathS,
      QTree.valueAt, QTree.subtreeAt, QTree.subtreeAt.go, QTree.setValueAt,
      QTree.setValueAt.go, QTree.shapeOf, QTree.val, BTreeS.isLeafAt,
      BTreeS.subtreeAt, BTreeS.descendRootFirst, BTreeS.child,
      adjacentInParent, mirrorStep, descendLoop, tC2, pA2, pB2, lf0, lf1]
  refine ⟨fun h => ?_, h1, h2⟩
  rw [h, h2] at h1
  exact absurd (Option.some.inj h1) (by norm_num)

/-- Counterexample for C3: on the depth-1 tree `tC3` the leaf `(0,0)`
misses its left neighbor; the scheme leaves its value at 1, while the
claimed Neumann ghost-cell update would produce 4. -/
theorem boundary_leaf_not_updated_cex :
    neighborValue tC3 [(false, false)] Dir.LEFT = none ∧
    (applyScheme 1 1 1 tC3 (QTree.leavesOf tC3)).valueAt [(false, false)] =
      some 1 ∧
    neumannClaimValue 1 1 1 tC3 [(false, false)] = 4 := by
  refine ⟨by decide, ?_, ?_⟩ <;>
  · norm_num [applyScheme, applyStep, neumannClaimValue, neighborValue,
      neighborPathS, QTree.valueAt, QTree.subtreeAt, QTree.subtreeAt.go,
      QTree.setValueAt, QTree.setValueAt.go, QTree.shapeOf, QTree.val,
      BTreeS.isLeafAt, BTreeS.subtreeAt, BTreeS.descendRootFirst,
      BTreeS.child, adjacentInParent, mirrorStep, descendLoop,
      QTree.leavesOf, tC3]

/-- Counterexample for C4: the cell `pC4` of `tC4` has an up neighbor
(value 1) and no down neighbor; the code computes `dy = up − value = 1`,
while a fallback consistent with the `(down − up)` convention would give
`value − up = −1`. -/
theorem dy_fallback_sign_cex :
    neighborValue tC4 pC4 Dir.UP = some 1 ∧
    neighborValue tC4 pC4 Dir.DOWN = none ∧
    slopeDy tC4 pC4 = 1 ∧ slopeDyPerClaim tC4 pC4 = -1 := by
  refine ⟨by decide, by decide, ?_, ?_⟩ <;>
  · norm_num [slopeDy, slopeDyPerClaim, neighborValue, neighborPathS,
      QTree.valueAt, QTree.subtreeAt, QTree.subtreeAt.go, QTree.shapeOf,
      QTree.val, BTreeS.isLeafAt, BTreeS.subtreeAt, BTreeS.descendRootFirst,
      BTreeS.child, adjacentInParent, mirrorStep, descendLoop, tC4, pC4]

/-- Counterexample for C5: on `tC5` the evaluated cell has value −1 and
gradient magnitude 5; the code stores the relative gradient −5 (division
by the raw value) where the claim's `magnitude / max(|value|, 10⁻⁶)`
equals 5, so the stored gradient is negative and differs from the
claimed one. -/
theorem gradient_division_cex :
    gradCritEval sqrtAt25 0 tC5 pC5 = (false, some (-5)) ∧
    relPerClaimC5 sqrtAt25 tC5 pC5 = 5 := by
  constructor <;>
  · norm_num [gradCritEval, relPerClaimC5, contrib, handleNeighbor,
      sqrtAt25, neighborValue, neighborPathS, QTree.valueAt,
      QTree.subtreeAt, QTree.subtreeAt.go, QTree.shapeOf, QTree.val,
      BTreeS.isLeafAt, BTreeS.subtreeAt, BTreeS.descendRootFirst,
      BTreeS.child, adjacentInParent, mirrorStep, descendLoop, tC5, pC5,
      lf0]

/-- Counterexample for C7: `n = 0` is not a power of two, yet
`0 & (0 - 1) == 0` passes the guard, a root is installed and the pair
`(mesh, -1)` is returned instead of the invalid-argument error. -/
theorem uniform_accepts_zero_cex :
    uniformMesh 0 3 = .ok (.leaf 0, -1) := by
  rfl

/-! ## Value updates, shapes and the sweep fold -/

theorem shapeOf_setValueAtGo (x : ℚ) :
    ∀ (l : List Step) (t : QTree),
      (QTree.setValueAt.go x t l).shapeOf = t.shapeOf := by
  intro l
  induction l with
  | nil => intro t; cases t <;> rfl
  | cons s rest ih =>
      intro t
      cases t with
      | leaf v => rfl
      | node v a b c d =>
          rcases s with ⟨sx, sy⟩
          cases sx <;> cases sy <;>
            simp [QTree.setValueAt.go, QTree.shapeOf, ih]

theorem shapeOf_setValueAt (t : QTree) (p : CellPath) (x : ℚ) :
    (t.setValueAt p x).shapeOf = t.shapeOf :=
  shapeOf_setValueAtGo x p.reverse t

theorem valueAtGo_setValueAtGo (x : ℚ) :
    ∀ (m l : List Step) (t : QTree), l ≠ m →
      (QTree.subtreeAt.go (QTree.setValueAt.go x t m) l).map QTree.val =
        (QTree.subtreeAt.go t l).map QTree.val := by
  intro m
  induction m with
  | nil =>
      intro l t hne
      cases l with
      | nil => exact absurd rfl hne
      | cons s l' =>
          cases t with
          | leaf v => rfl
          | node v a b c d =>
              rcases s with ⟨sx, sy⟩
              cases sx <;> cases sy <;> rfl
  | cons s m' ih =>
      intro l t hne
      rcases s with ⟨sx, sy⟩
      cases t with
      | leaf v =>
          cases sx <;> cases sy <;> rfl
      | node v a b c d =>
          cases l with
          | nil => cases sx <;> cases sy <;> rfl
          | cons s' l' =>
              rcases s' with ⟨tx, ty⟩
              cases sx <;> cases sy <;> cases tx <;> cases ty <;>
                simp only [QTree.setValueAt.go, QTree.subtreeAt.go] <;>
                first
                  | rfl
                  | exact ih l' _ fun h => hne (congrArg (List.cons _) h)

theorem valueAt_setValueAt_of_ne (t : QTree) (q : CellPath) (x : ℚ)
    (p : CellPath) (h : p ≠ q) :
    (t.setValueAt q x).valueAt p = t.valueAt p := by
  have hr : p.reverse ≠ q.reverse := fun hrev =>
    h (by simpa using congrArg List.reverse hrev)
  simpa [QTree.valueAt, QTree.subtreeAt, QTree.setValueAt] using
    valueAtGo_setValueAtGo x q.reverse p.reverse t hr

/-- Case characterization of one sweep iteration: it either leaves the
tree unchanged or writes the stencil update at its own path. -/
theorem applyStep_cases (fac d1 d2 : ℚ) (t : QTree)
    (pr : CellPath × Option ℚ) :
    applyStep fac d1 d2 t pr = t ∨
    ∃ v rv lv uv dv, pr.2 = some v ∧
      neighborValue t pr.1 .RIGHT = some rv ∧
      neighborValue t pr.1 .LEFT = some lv ∧
      neighborValue t pr.1 .UP = some uv ∧
      neighborValue t pr.1 .DOWN = some dv ∧
      applyStep fac d1 d2 t pr =
        t.setValueAt pr.1
          (v + ((rv - 2 * v + lv) / d1 ^ 2 + (uv - 2 * v + dv) / d2 ^ 2) *
            fac) := by
  rcases pr with ⟨q, _ | v⟩
  · exact Or.inl rfl
  · simp only [applyStep]
    split
    · next rv lv uv dv hR hL hU hD =>
        exact Or.inr ⟨v, rv, lv, uv, dv, rfl, hR, hL, hU, hD, rfl⟩
    · exact Or.inl rfl

theorem shapeOf_applyStep (fac d1 d2 : ℚ) (t : QTree)
    (pr : CellPath × Option ℚ) :
    (applyStep fac d1 d2 t pr).shapeOf = t.shapeOf := by
  rcases applyStep_cases fac d1 d2 t pr with h | ⟨v, rv, lv, uv, dv, _, _, _, _, _, h⟩
  · rw [h]
  · rw [h, shapeOf_setValueAt]

theorem foldl_applyStep_keeps_missing (fac d1 d2 : ℚ) (p : CellPath)
    (d : Dir) :
    ∀ (l : List (CellPath × Option ℚ)) (t : QTree),
      neighborPathS t.shapeOf p d = none →
      (l.foldl (applyStep fac d1 d2) t).valueAt p = t.valueAt p := by
  intro l
  induction l with
  | nil => intro t _; rfl
  | cons pr rest ih =>
      intro t h
      have hs : (applyStep fac d1 d2 t pr).shapeOf = t.shapeOf :=
        shapeOf_applyStep fac d1 d2 t pr
      have hv : (applyStep fac d1 d2 t pr).valueAt p = t.valueAt p := by
        rcases applyStep_cases fac d1 d2 t pr with heq |
          ⟨v, rv, lv, uv, dv, _, hR, hL, hU, hD, heq⟩
        · rw [heq]
        · by_cases hpq : p = pr.1
          · subst hpq
            cases d
            · simp only [neighborValue, h] at hR
              exact Option.noConfusion hR
            · simp only [neighborValue, h] at hL
              exact Option.noConfusion hL
            · simp only [neighborValue, h] at hU
              exact Option.noConfusion hU
            · simp only [neighborValue, h] at hD
              exact Option.noConfusion hD
          · rw [heq]
            exact valueAt_setValueAt_of_ne t pr.1 _ p hpq
      have h2 : neighborPathS (applyStep fac d1 d2 t pr).shapeOf p d = none := by
        rw [hs]; exact h
      simpa [hv] using ih (applyStep fac d1 d2 t pr) h2

/-- C3 (amended): a leaf missing any cardinal neighbor is skipped by the
sweep — its value is unchanged by `apply`, whatever the node list. -/
theorem apply_skips_boundary_leaves (fac d1 d2 : ℚ) (t : QTree)
    (nodes : List CellPath) (p : CellPath) (d : Dir)
    (h : neighborPathS t.shapeOf p d = none) :
    (applyScheme fac d1 d2 t nodes).valueAt p = t.valueAt p :=
  foldl_applyStep_keeps_missing fac d1 d2 p d
    (nodes.map fun q => (q, t.valueAt q)) t h

/-- Witness for the amended C3 at the depth-1 tree `tC3`: the leaf
`(0,0)` has no left neighbor and keeps its value through the sweep. -/
theorem apply_skips_boundary_leaves_witness :
    neighborPathS tC3.shapeOf [(false, false)] Dir.LEFT = none ∧
    (applyScheme 1 1 1 tC3 (QTree.leavesOf tC3)).valueAt [(false, false)] =
      tC3.valueAt [(false, false)] :=
  ⟨by decide,
    apply_skips_boundary_leaves 1 1 1 tC3 (QTree.leavesOf tC3)
      [(false, false)] Dir.LEFT (by decide)⟩

/-! ## Constant meshes through the sweep -/

theorem allValuesB_val {t : QTree} {v : ℚ} (h : allValuesB t v = true) :
    t.val = v := by
  cases t <;> simp only [allValuesB, Bool.and_eq_true, beq_iff_eq] at h <;>
    simp only [QTree.val]
  · exact h
  · exact h.1.1.1.1

theorem allValuesB_subtreeGo {v : ℚ} :
    ∀ (l : List Step) (t t' : QTree), allValuesB t v = true →
      QTree.subtreeAt.go t l = some t' → allValuesB t' v = true := by
  intro l
  induction l with
  | nil =>
      intro t t' h hget
      simp only [QTree.subtreeAt.go] at hget
      cases hget
      exact h
  | cons s rest ih =>
      intro t t' h hget
      cases t with
      | leaf w => exact Option.noConfusion hget
      | node w a b c d =>
          simp only [allValuesB, Bool.and_eq_true, beq_iff_eq] at h
          rcases s with ⟨sx, sy⟩
          cases sx <;> cases sy <;>
            simp only [QTree.subtreeAt.go] at hget
          · exact ih a t' h.1.1.1.2 hget
          · exact ih b t' h.1.1.2 hget
          · exact ih c t' h.1.2 hget
          · exact ih d t' h.2 hget

theorem valueAt_of_allValues {t : QTree} {v : ℚ} (h : allValuesB t v = true)
    {p : CellPath} {u : ℚ} (hp : t.valueAt p = some u) : u = v := by
  rw [QTree.valueAt, QTree.subtreeAt] at hp
  rcases hsub : QTree.subtreeAt.go t p.reverse with _ | t'
  · rw [hsub] at hp; exact Option.noConfusion hp
  · rw [hsub] at hp
    have hval : t'.val = u := Option.some.inj hp
    rw [← hval]
    exact allValuesB_val (allValuesB_subtreeGo p.reverse t t' h hsub)

theorem neighborValue_of_allValues {t : QTree} {v : ℚ}
    (h : allValuesB t v = true) {p : CellPath} {d : Dir} {u : ℚ}
    (hn : neighborValue t p d = some u) : u = v := by
  rw [neighborValue] at hn
  rcases hq : neighborPathS t.shapeOf p d with _ | q
  · rw [hq] at hn; exact Option.noConfusion hn
  · rw [hq] at hn
    exact valueAt_of_allValues h hn

theorem allValuesB_setValueAtGo {v : ℚ} :
    ∀ (l : List Step) (t : QTree), allValuesB t v = true →
      allValuesB (QTree.setValueAt.go v t l) v = true := by
  intro l
  induction l with
  | nil =>
      intro t h
      cases t with
      | leaf w => simp [QTree.setValueAt.go, allValuesB]
      | node w a b c d =>
          simp only [allValuesB, Bool.and_eq_true, beq_iff_eq] at h
          simp [QTree.setValueAt.go, allValuesB, h.1.1.1.2, h.1.1.2, h.1.2,
            h.2]
  | cons s rest ih =>
      intro t h
      cases t with
      | leaf w => exact h
      | node w a b c d =>
          simp only [allValuesB, Bool.and_eq_true, beq_iff_eq] at h
          rcases s with ⟨sx, sy⟩
          cases sx <;> cases sy <;>
            simp [QTree.setValueAt.go, allValuesB, h.1.1.1.1, h.1.1.1.2,
              h.1.1.2, h.1.2, h.2, ih]

theorem allValuesB_setValueAt {t : QTree} {v : ℚ} (p : CellPath)
    (h : allValuesB t v = true) :
    allValuesB (t.setValueAt p v) v = true :=
  allValuesB_setValueAtGo p.reverse t h

theorem applyStep_preserves_allValues (fac d1 d2 v : ℚ) (t : QTree)
    (pr : CellPath × Option ℚ) (hall : allValuesB t v = true)
    (hsnap : ∀ u, pr.2 = some u → u = v) :
    allValuesB (applyStep fac d1 d2 t pr) v = true := by
  rcases applyStep_cases fac d1 d2 t pr with heq |
    ⟨w, rv, lv, uv, dv, hw, hR, hL, hU, hD, heq⟩
  · rw [heq]; exact hall
  · have hwv : w = v := hsnap w hw
    have hrv : rv = v := neighborValue_of_allValues hall hR
    have hlv : lv = v := neighborValue_of_allValues hall hL
    have huv : uv = v := neighborValue_of_allValues hall hU
    have hdv : dv = v := neighborValue_of_allValues hall hD
    rw [hwv] at heq
    rw [hrv] at heq
    rw [hlv] at heq
    rw [huv] at heq
    rw [hdv] at heq
    have hz : v + ((v - 2 * v + v) / d1 ^ 2 + (v - 2 * v + v) / d2 ^ 2) *
        fac = v := by
      have h0 : v - 2 * v + v = 0 := by ring
      rw [h0]
      simp
    rw [heq, hz]
    exact allValuesB_setValueAt pr.1 hall

theorem foldl_applyStep_allValues (fac d1 d2 v : ℚ) :
    ∀ (l : List (CellPath × Option ℚ)) (t : QTree),
      (∀ pr ∈ l, ∀ u, pr.2 = some u → u = v) →
      allValuesB t v = true →
      allValuesB (l.foldl (applyStep fac d1 d2) t) v = true := by
  intro l
  induction l with
  | nil => intro t _ hall; exact hall
  | cons pr rest ih =>
      intro t hsnap hall
      simp only [List.foldl_cons]
      exact ih (applyStep fac d1 d2 t pr)
        (fun q hq => hsnap q (List.mem_cons_of_mem pr hq))
        (applyStep_preserves_allValues fac d1 d2 v t pr hall
          (hsnap pr (List.mem_cons_self pr rest)))

theorem leavesOf_valueAt {v : ℚ} :
    ∀ (t : QTree), allValuesB t v = true →
      ∀ p ∈ t.leavesOf, t.valueAt p = some v := by
  intro t
  induction t with
  | leaf w =>
      intro h p hp
      simp only [QTree.leavesOf, List.mem_singleton] at hp
      subst hp
      simp only [allValuesB, beq_iff_eq] at h
      simp [QTree.valueAt, QTree.subtreeAt, QTree.subtreeAt.go, QTree.val, h]
  | node w a b c d iha ihb ihc ihd =>
      intro h p hp
      simp only [allValuesB, Bool.and_eq_true, beq_iff_eq] at h
      simp only [QTree.leavesOf, List.mem_append, List.mem_map] at hp
      have hval : ∀ (c' : QTree) (p' : CellPath) (s : Step),
          (QTree.node w a b c d).valueAt (p' ++ [s]) =
            match s with
            | (false, false) => a.valueAt p'
            | (false, true) => b.valueAt p'
            | (true, false) => c.valueAt p'
            | (true, true) => d.valueAt p' := by
        intro c' p' s
        rcases s with ⟨sx, sy⟩
        cases sx <;> cases sy <;>
          simp [QTree.valueAt, QTree.subtreeAt, List.reverse_append,
            QTree.subtreeAt.go]
      rcases hp with ((⟨p', hp', rfl⟩ | ⟨p', hp', rfl⟩) | ⟨p', hp', rfl⟩) |
        ⟨p', hp', rfl⟩
      · rw [hval a p' (false, false)]
        exact iha h.1.1.1.2 p' hp'
      · rw [hval b p' (false, true)]
        exact ihb h.1.1.2 p' hp'
      · rw [hval c p' (true, false)]
        exact ihc h.1.2 p' hp'
      · rw [hval d p' (true, true)]
        exact ihd h.2 p' hp'

/-- C8 (amended): if every node of the tree — internal nodes included —
holds the value `v`, then after `solve` with the centered scheme every
leaf still holds `v` (positivity of the factor and the spatial steps as
in the claim). -/
theorem scheme_preserves_uniform_value (v fac d1 d2 : ℚ) (t : QTree)
    (nodes : List CellPath) (hall : allValuesB t v = true) (hfac : 0 < fac)
    (hd1 : 0 < d1) (hd2 : 0 < d2) :
    ∀ p ∈ (applyScheme fac d1 d2 t nodes).leavesOf,
      (applyScheme fac d1 d2 t nodes).valueAt p = some v := by
  have hres : allValuesB (applyScheme fac d1 d2 t nodes) v = true := by
    refine foldl_applyStep_allValues fac d1 d2 v _ t ?_ hall
    intro pr hpr u hu
    simp only [List.mem_map] at hpr
    obtain ⟨q, _, rfl⟩ := hpr
    exact valueAt_of_allValues hall hu
  exact leavesOf_valueAt (applyScheme fac d1 d2 t nodes) hres

/-- Witness for the amended C8 on a depth-1 tree of constant value 7. -/
theorem scheme_preserves_uniform_value_witness :
    allValuesB tC8W 7 = true ∧ (0 : ℚ) < 1 ∧
    ∀ p ∈ (applyScheme 1 1 1 tC8W (QTree.leavesOf tC8W)).leavesOf,
      (applyScheme 1 1 1 tC8W (QTree.leavesOf tC8W)).valueAt p = some 7 :=
  ⟨by norm_num [allValuesB, tC8W], by norm_num,
    scheme_preserves_uniform_value 7 1 1 1 tC8W (QTree.leavesOf tC8W)
      (by norm_num [allValuesB, tC8W]) (by norm_num) (by norm_num)
      (by norm_num)⟩

/-- Counterexample for C8: in `tC8` every leaf holds 1, but the internal
node at `(1,1)` of root child `(0,0)` stores 5; the neighbor lookup
hands that internal node to the stencil of the interior leaf `pC8`,
whose value moves from 1 to 5 during the sweep. -/
theorem constant_leaves_not_preserved_cex :
    (∀ p ∈ QTree.leavesOf tC8, tC8.valueAt p = some 1) ∧
    (applyScheme 1 1 1 tC8 (QTree.leavesOf tC8)).valueAt pC8 = some 5 := by
  refine ⟨by decide, ?_⟩
  norm_num [applyScheme, applyStep, neighborValue, neighborPathS,
    QTree.valueAt, QTree.subtreeAt, QTree.subtreeAt.go, QTree.setValueAt,
    QTree.setValueAt.go, QTree.shapeOf, QTree.val, BTreeS.isLeafAt,
    BTreeS.subtreeAt, BTreeS.descendRootFirst, BTreeS.child,
    adjacentInParent, mirrorStep, descendLoop, QTree.leavesOf, tC8, pC8,
    lf1]

/-- C4 (amended): the interpolated child value is the parent value plus
the child-center offsets `±1/4` times the damped slopes, where `dx`
follows the claim's convention and `dy` uses the sign-mirrored one-sided
fallbacks (`up − value`, `value − down`) around the `(down − up) / 2`
central difference. -/
theorem refine_interpolation_slopes (t : QTree) (p : CellPath)
    (cx cy : Bool) :
    interpolateChild t p (cx, cy) =
      (t.valueAt p).getD 0 +
        (if cx then (1 : ℚ) / 4 else -(1 / 4)) * (slopeDxSpec t p / 10) +
        (if cy then (1 : ℚ) / 4 else -(1 / 4)) * (slopeDySpec t p / 10) ∧
    slopeDx t p = slopeDxSpec t p ∧ slopeDy t p = slopeDySpec t p := by
  refine ⟨?_, rfl, rfl⟩
  have hdx : slopeDx t p = slopeDxSpec t p := rfl
  have hdy : slopeDy t p = slopeDySpec t p := rfl
  simp only [interpolateChild, hdx, hdy]
  cases cx <;> cases cy <;> norm_num <;> ring

/-- C5 (amended): with four present neighbors contributing nonzero
values, the criterium computes the relative gradient as the magnitude
divided by the raw `self.value` (0 when the value is 0), stores it and
compares it with the threshold; the stored gradient is negative whenever
the value is negative and the magnitude positive. -/
theorem gradient_criterium_signed (sqrtFn : ℚ → ℚ) (θ : ℚ) (t : QTree)
    (p : CellPath) (rv lv uv dv rf lf uf df : ℚ)
    (hR : contrib t p .RIGHT = (some rv, rf))
    (hL : contrib t p .LEFT = (some lv, lf))
    (hU : contrib t p .UP = (some uv, uf))
    (hD : contrib t p .DOWN = (some dv, df))
    (hrz : rv ≠ 0) (hlz : lv ≠ 0) (huz : uv ≠ 0) (hdz : dv ≠ 0) :
    gradCritEval sqrtFn θ t p =
      (decide (relAmendedC5 sqrtFn t p > θ), some (relAmendedC5 sqrtFn t p)) ∧
    ((t.valueAt p).getD 0 < 0 →
      0 < sqrtFn (((rv - lv) / (rf + lf)) ^ 2 + ((uv - dv) / (uf + df)) ^ 2) →
      relAmendedC5 sqrtFn t p < 0) := by
  have hrel : relAmendedC5 sqrtFn t p =
      if (t.valueAt p).getD 0 ≠ 0 then
        sqrtFn (((rv - lv) / (rf + lf)) ^ 2 + ((uv - dv) / (uf + df)) ^ 2) /
          (t.valueAt p).getD 0
      else 0 := by
    simp only [relAmendedC5, hR, hL, hU, hD, Option.getD_some]
  constructor
  · simp only [gradCritEval, hR, hL, hU, hD, hrel]
    rw [if_neg]
    simp only [not_or]
    exact ⟨hrz, hlz, huz, hdz⟩
  · intro hv hm
    rw [hrel, if_pos (by exact ne_of_lt hv)]
    exact div_neg_of_pos_of_neg hm hv

/-- Witness for the amended C5 on `tC5`: the stored relative gradient is
−5, a negative value, and the verdict against threshold 0 is `false`. -/
theorem gradient_criterium_signed_witness :
    gradCritEval sqrtAt25 0 tC5 pC5 =
      (decide (relAmendedC5 sqrtAt25 tC5 pC5 > 0),
        some (relAmendedC5 sqrtAt25 tC5 pC5)) ∧
    relAmendedC5 sqrtAt25 tC5 pC5 < 0 := by
  have h := gradient_criterium_signed sqrtAt25 0 tC5 pC5 7 1 9 1 1 1 1 1
    (by decide) (by decide) (by decide) (by decide)
    (by norm_num) (by norm_num) (by norm_num) (by norm_num)
  refine ⟨h.1, h.2 (by decide) ?_⟩
  norm_num [sqrtAt25]

/-- C10: whenever a node has all four cardinal neighbors but any of the
contributed neighbor values equals 0.0, both gradient criteria return
`False` early (the truthiness check rejects the zero) and leave
`node.gradient` untouched. -/
theorem zero_valued_neighbor_disables_criterium (sqrtFn logFn : ℚ → ℚ)
    (t1 t2 : ℚ) (t : QTree) (p : CellPath)
    (hex : ∀ d : Dir, (neighborPathS t.shapeOf p d).isSome = true)
    (h0 : ∃ d : Dir, (contrib t p d).1 = some 0) :
    gradCritEval sqrtFn t1 t p = (false, none) ∧
    logCritEval sqrtFn logFn t2 t p = (false, none) := by
  obtain ⟨d, hd⟩ := h0
  have hzero : ∀ {rv lv uv dv : ℚ},
      (contrib t p .RIGHT).1 = some rv → (contrib t p .LEFT).1 = some lv →
      (contrib t p .UP).1 = some uv → (contrib t p .DOWN).1 = some dv →
      rv = 0 ∨ lv = 0 ∨ uv = 0 ∨ dv = 0 := by
    intro rv lv uv dv hR hL hU hD
    cases d
    · rw [hR] at hd; exact Or.inl (Option.some.inj hd)
    · rw [hL] at hd; exact Or.inr (Or.inl (Option.some.inj hd))
    · rw [hU] at hd; exact Or.inr (Or.inr (Or.inl (Option.some.inj hd)))
    · rw [hD] at hd; exact Or.inr (Or.inr (Or.inr (Option.some.inj hd)))
  constructor
  · rcases hR : (contrib t p .RIGHT).1 with _ | rv <;>
      rcases hL : (contrib t p .LEFT).1 with _ | lv <;>
      rcases hU : (contrib t p .UP).1 with _ | uv <;>
      rcases hD : (contrib t p .DOWN).1 with _ | dv <;>
      simp only [gradCritEval, hR, hL, hU, hD] <;>
      first
        | rfl
        | rw [if_pos (hzero hR hL hU hD)]
  · rcases hR : (contrib t p .RIGHT).1 with _ | rv <;>
      rcases hL : (contrib t p .LEFT).1 with _ | lv <;>
      rcases hU : (contrib t p .UP).1 with _ | uv <;>
      rcases hD : (contrib t p .DOWN).1 with _ | dv <;>
      simp only [logCritEval, hR, hL, hU, hD] <;>
      first
        | rfl
        | rw [if_pos (hzero hR hL hU hD)]

/-- Witness for C10 on `tC10`: all four neighbors of the interior cell
exist, the right one contributes 0, and both criteria return `False`
with no gradient stored. -/
theorem zero_valued_neighbor_disables_criterium_witness :
    gradCritEval sqrtAt25 0 tC10 pC5 = (false, none) ∧
    logCritEval sqrtAt25 (fun q => q) 0 tC10 pC5 = (false, none) :=
  zero_valued_neighbor_disables_criterium sqrtAt25 (fun q => q) 0 0 tC10 pC5
    (by intro d; cases d <;> decide) ⟨Dir.RIGHT, by decide⟩

/-! ## The power-of-two guard of `Mesh.uniform` -/

theorem testBit_shift_add :
    ∀ (s a b i : Nat), b < 2 ^ s →
      Nat.testBit (2 ^ s * a + b) (s + i) = Nat.testBit a i := by
  intro s
  induction s with
  | zero =>
      intro a b i hb
      have hb0 : b = 0 := by omega
      subst hb0
      simp
  | succ s ih =>
      intro a b i hb
      have hpow : 2 ^ (s + 1) = 2 * 2 ^ s := by
        rw [pow_succ]
        ring
      have hmul : 2 ^ (s + 1) * a = 2 * (2 ^ s * a) := by
        rw [hpow]
        ring
      have h2 : (2 ^ (s + 1) * a + b) / 2 = 2 ^ s * a + b / 2 := by omega
      have hlt : b / 2 < 2 ^ s := by omega
      rw [show s + 1 + i = s + i + 1 from by omega, Nat.testBit_add_one, h2]
      exact ih a (b / 2) i hlt

theorem land_pred_ne_zero (n : Nat) (h1 : 1 ≤ n)
    (h2 : ∀ k : Nat, n ≠ 2 ^ k) : Nat.land n (n - 1) ≠ 0 := by
  obtain ⟨k, m, hodd, rfl⟩ := Nat.exists_eq_two_pow_mul_odd (n := n) (by omega)
  obtain ⟨t, rfl⟩ := hodd
  have ht : t ≠ 0 := by
    rintro rfl
    exact h2 k (by ring)
  obtain ⟨j, hj⟩ : ∃ j, t.testBit j = true := by
    by_contra hc
    push_neg at hc
    refine ht (Nat.eq_of_testBit_eq fun i => ?_)
    simp [hc i]
  have hpos : 1 ≤ 2 ^ k := Nat.one_le_two_pow
  have hpow : 2 ^ (k + 1) = 2 * 2 ^ k := by
    rw [pow_succ]
    ring
  have hn : 2 ^ k * (2 * t + 1) = 2 ^ (k + 1) * t + 2 ^ k := by
    rw [hpow]
    ring
  have hn1 : 2 ^ k * (2 * t + 1) - 1 = 2 ^ (k + 1) * t + (2 ^ k - 1) := by
    omega
  intro hz
  have hbit := congrArg (fun x => Nat.testBit x (k + 1 + j)) hz
  simp only [Nat.zero_testBit] at hbit
  have hland : Nat.land (2 ^ k * (2 * t + 1)) (2 ^ k * (2 * t + 1) - 1) =
      2 ^ k * (2 * t + 1) &&& (2 ^ k * (2 * t + 1) - 1) := rfl
  rw [hland, Nat.testBit_land] at hbit
  rw [hn1, testBit_shift_add (k + 1) t (2 ^ k - 1) j (by omega)] at hbit
  rw [hn, testBit_shift_add (k + 1) t (2 ^ k) j (by omega)] at hbit
  rw [hj] at hbit
  exact Bool.noConfusion hbit

/-- C7 (amended): for every `n ≥ 1` that is not a power of two,
`Mesh.uniform` fails with the invalid-argument error, so no root is
installed (the error value carries no mesh). -/
theorem uniform_rejects_positive_nonpowers (n : Nat) (g : ℚ) (h1 : 1 ≤ n)
    (h2 : ∀ k : Nat, n ≠ 2 ^ k) :
    uniformMesh n g = .error "Number of nodes must be a power of 2." := by
  rw [uniformMesh, if_pos (land_pred_ne_zero n h1 h2)]

/-- Witness for the amended C7 at `n = 3`. -/
theorem uniform_rejects_positive_nonpowers_witness :
    1 ≤ 3 ∧
    uniformMesh 3 5 = .error "Number of nodes must be a power of 2." :=
  ⟨by norm_num,
    uniform_rejects_positive_nonpowers 3 5 (by norm_num) fun k => by
      match k with
      | 0 => decide
      | 1 => decide
      | k + 2 =>
          have h4 : 4 ≤ 2 ^ (k + 2) := by
            calc (4 : ℕ) = 2 ^ 2 := rfl
            _ ≤ 2 ^ (k + 2) := Nat.pow_le_pow_right (by norm_num) (by omega)
          omega⟩

set_option maxRecDepth 10000 in
/-- Counterexample evaluation for C1: `tC1` satisfies the 2:1 grading,
`Mesh.refine(critC1, min_depth=0, max_depth=4)` returns normally, and
the resulting mesh violates the grading — the level-4 leaf at
`(0,1)/(0,1)/(1,1)/(1,0)` has a level-2 DOWN neighbor.  The root child
`(1,1)` is flagged in the stale leaf list, gets refined (and its subtree
deepened) by the buffer passes of the other flagged leaves, is still
added to `to_refine`, and the final `Node.refine()` replaces its
children dict, collapsing the deep subtree next to the level-4 cells. -/
theorem refine_breaks_grading_cex :
    leafGraded tC1 = true ∧
    (refineScheduler critC1 0 4 tC1).map leafGraded = some false ∧
    (refineScheduler critC1 0 4 tC1).map (fun t2 =>
      decide ([(false, true), (false, true), (true, true), (true, false)] ∈
          t2.leavesOf) &&
      (neighborPathS t2.shapeOf
          [(false, true), (false, true), (true, true), (true, false)]
          Dir.DOWN == some [(true, false), (true, true)])) = some true := by
  refine ⟨by decide, by decide, by decide⟩
